import Mathlib

/-!
Verification development for the okex-books-buddy analysis pipeline.

The repository source under `src/analysis/bytewax/analysis_flow.py` is an M1
skeleton: `main` reads three environment variables and prints two lines.  The
streaming components (SymbolWindow, the two detectors, the emitter) are
described by the design document but absent from the source tree; they are
modelled here from the spec, each such definition marked
`Modelled from the spec:` in its doc comment.
-/

namespace OkexBuddy

/-! ## Embedding of `main` (src/analysis/bytewax/analysis_flow.py) -/

/-- A process environment: maps a variable name to its value, `none` if unset.
`os.getenv` in Python returns `None` for an unset variable. -/
def Env : Type := String → Option String

/-- Python `str(x)` for an `os.getenv` result: `None` prints as `"None"`,
a string prints as itself. -/
def pyStr : Option String → String
  | none => "None"
  | some s => s

/-- Exceptions a Python expression could raise; `main`'s body contains no
raising operation, so this type has no inhabitant produced by the embedding,
but the result type records the possibility faithfully. -/
inductive PyExc where
  | exc : String → PyExc
deriving DecidableEq, Repr

/-- Result of one run of `main`: the lines printed to stdout, the environment
variable names fetched via `os.getenv` (in call order), and the process exit
status. -/
structure MainResult where
  out : List String
  reads : List String
  exitCode : Nat
deriving DecidableEq, Repr

/-- Embedding of the body of `main` (analysis_flow.py lines 7-12) as an
`Except` computation: three `os.getenv` calls, then two `print` calls.
`os.getenv` never raises; `print` of strings never raises.  The returned pair
is (getenv keys in call order, printed lines). -/
def mainBody (env : Env) : Except PyExc (List String × List String) := do
  let influx_url := env "INFLUX_URL"
  let influx_org := env "INFLUX_ORG"
  let influx_bucket := env "INFLUX_BUCKET"
  pure (["INFLUX_URL", "INFLUX_ORG", "INFLUX_BUCKET"],
    ["okex-buddy bytewax analysis flow (M1 skeleton)",
     "Influx: " ++ pyStr influx_url ++ " " ++ pyStr influx_org ++ " "
       ++ pyStr influx_bucket])

/-- Running `main` as a process: a normal return exits with status 0, an
uncaught exception would exit nonzero (CPython exits 1 on an uncaught
exception). -/
def mainRun (env : Env) : MainResult :=
  match mainBody env with
  | .ok (reads, out) => { out := out, reads := reads, exitCode := 0 }
  | .error _ => { out := [], reads := [], exitCode := 1 }

/-- Modelled from the spec: the recognized configuration options listed in
section 6 (Configuration).  Eleven distinct options: time-series store
connection URL, organization, bucket/target dataset; queue connection target
and queue/key name; the four detector thresholds; window retention horizon;
batch size/flush interval for emission. -/
def specConfigOptions : List String :=
  ["ts-store-url", "ts-store-org", "ts-store-bucket",
   "queue-connection-target", "queue-key-name",
   "anomaly-depth-threshold", "shrinkage-slope-threshold",
   "shrinkage-monotonicity-threshold", "shrinkage-cooldown-duration",
   "window-retention-horizon", "emission-batch-size-flush-interval"]

/-! ## Exact rational arithmetic

The detectors compute relative changes, least-squares slopes and mean
depths.  They are modelled with exact rational arithmetic (a canonical
numerator/denominator pair with structurally recursive normalization), so
every detector run is computable and every comparison decidable. -/

/-- Euclid's algorithm with explicit fuel; `gcdFuel (a+1) a b` computes
`gcd a b` (the fuel strictly exceeds the first argument throughout). -/
def gcdFuel : Nat → Nat → Nat → Nat
  | 0, _, b => b
  | fuel + 1, a, b => if a = 0 then b else gcdFuel fuel (b % a) a

/-- Greatest common divisor via `gcdFuel`. -/
def natGcd (a b : Nat) : Nat := gcdFuel (a + 1) a b

/-- An exact rational: canonical pairs produced by `Q.norm` have a positive
denominator coprime to the numerator, so structural equality of values built
by the arithmetic below coincides with equality of rationals. -/
structure Q where
  num : Int
  den : Nat
deriving DecidableEq, Repr

/-- Normalize a numerator/denominator pair (denominator 0 maps to 0). -/
def Q.norm (n : Int) (d : Nat) : Q :=
  if d = 0 then ⟨0, 1⟩
  else
    let g := natGcd n.natAbs d
    ⟨n / (g : Int), d / g⟩

/-- Build the rational `n / d` in canonical form. -/
def Q.frac (n : Int) (d : Nat) : Q := Q.norm n d

/-- Embed a natural number. -/
def Q.ofNat (n : Nat) : Q := ⟨(n : Int), 1⟩

instance (n : Nat) : OfNat Q n := ⟨Q.ofNat n⟩

/-- Addition. -/
def Q.add (a b : Q) : Q :=
  Q.norm (a.num * (b.den : Int) + b.num * (a.den : Int)) (a.den * b.den)

instance : Add Q := ⟨Q.add⟩

/-- Negation (canonical forms are preserved). -/
def Q.neg (a : Q) : Q := ⟨-a.num, a.den⟩

instance : Neg Q := ⟨Q.neg⟩

/-- Subtraction. -/
def Q.sub (a b : Q) : Q := a + -b

instance : Sub Q := ⟨Q.sub⟩

/-- Multiplication. -/
def Q.mul (a b : Q) : Q := Q.norm (a.num * b.num) (a.den * b.den)

instance : Mul Q := ⟨Q.mul⟩

/-- Division, with division by zero yielding 0 (as in mathlib's `ℚ`). -/
def Q.div (a b : Q) : Q :=
  if b.num = 0 then ⟨0, 1⟩
  else Q.norm (a.num * (b.den : Int) * (if b.num < 0 then -1 else 1))
    (a.den * b.num.natAbs)

instance : Div Q := ⟨Q.div⟩

instance : LE Q := ⟨fun a b => a.num * (b.den : Int) ≤ b.num * (a.den : Int)⟩

instance : LT Q := ⟨fun a b => a.num * (b.den : Int) < b.num * (a.den : Int)⟩

instance (a b : Q) : Decidable (a ≤ b) := Int.decLe _ _

instance (a b : Q) : Decidable (a < b) := Int.decLt _ _

/-- Absolute value. -/
def Q.abs (a : Q) : Q := if a.num < 0 then -a else a

/-! ## Data model (modelled from the spec, sections 3 and 4) -/

/-- Modelled from the spec: `DepthSnapshot` (section 3) — one observation of an
order book's state.  Event time and the per-symbol sequence counter are
naturals; depths are exact rationals. -/
structure DepthSnapshot where
  symbol : String
  timestamp : Nat
  bid_depth : Q
  ask_depth : Q
  sequence : Nat
deriving DecidableEq, Repr

/-- Modelled from the spec: `SymbolWindow` (sections 3 and 4.2) — per-symbol
bounded buffer of recent snapshots, stored oldest first.  `last_sequence` is
`none` for a freshly created window; the rejected out-of-order and duplicate
entries are the `SequenceGap` and `DuplicateSnapshot` counters. -/
structure SymbolWindow where
  symbol : String
  horizon : Nat
  snapshots : List DepthSnapshot
  last_sequence : Option Nat
  dup_count : Nat
  gap_count : Nat
deriving DecidableEq, Repr

/-- A freshly created window for a previously unseen symbol. -/
def SymbolWindow.fresh (sym : String) (horizon : Nat) : SymbolWindow :=
  { symbol := sym, horizon := horizon, snapshots := [], last_sequence := none,
    dup_count := 0, gap_count := 0 }

/-- Timestamp of the newest stored entry, `none` for an empty window. -/
def SymbolWindow.newestTs (w : SymbolWindow) : Option Nat :=
  w.snapshots.getLast?.map DepthSnapshot.timestamp

/-- Modelled from the spec: eviction (section 4.2) — after an insert with
latest event time `now`, entries older than `now - horizon` are evicted; an
entry is retained iff `now ≤ timestamp + horizon`. -/
def evict (horizon now : Nat) (l : List DepthSnapshot) : List DepthSnapshot :=
  l.filter (fun s => now ≤ s.timestamp + horizon)

/-- The sequence-number acceptance test: the new sequence must be strictly
greater than the last observed one (any sequence is accepted by a fresh
window). -/
def seqOk : Option Nat → Nat → Bool
  | none, _ => true
  | some l, q => l < q

/-- The timestamp acceptance test: the new timestamp must not be earlier than
the newest stored entry (any timestamp is accepted by an empty window). -/
def tsOk : Option Nat → Nat → Bool
  | none, _ => true
  | some m, t => m ≤ t

/-- Modelled from the spec: `SymbolWindow.insert` (section 4.2) — appends if
`snapshot.sequence > last_sequence` and `snapshot.timestamp` is not earlier
than the newest stored entry, then evicts entries older than the retention
horizon relative to the new latest timestamp.  A snapshot replaying the last
observed sequence is counted as a `DuplicateSnapshot`; any other rejected
entry (sequence or timestamp out of order) is counted as a `SequenceGap`.
Returns the updated window and whether the snapshot was accepted. -/
def SymbolWindow.insert (w : SymbolWindow) (s : DepthSnapshot) :
    SymbolWindow × Bool :=
  if seqOk w.last_sequence s.sequence && tsOk w.newestTs s.timestamp then
    ({ w with
        snapshots := evict w.horizon s.timestamp (w.snapshots ++ [s]),
        last_sequence := some s.sequence }, true)
  else if w.last_sequence = some s.sequence then
    ({ w with dup_count := w.dup_count + 1 }, false)
  else ({ w with gap_count := w.gap_count + 1 }, false)

/-- Delivering a whole sequence of snapshots to the window, in order. -/
def SymbolWindow.insertAll (w : SymbolWindow) (xs : List DepthSnapshot) :
    SymbolWindow :=
  xs.foldl (fun w s => (w.insert s).1) w

/-- The declarative filtered subsequence from the spec's testable property
(section 8): keep each input snapshot iff its sequence is strictly greater
than the last kept sequence and its timestamp not earlier than the last kept
timestamp.  The two accumulators start at `none` for an empty history. -/
def filteredSubseq (lseq lts : Option Nat) :
    List DepthSnapshot → List DepthSnapshot
  | [] => []
  | x :: xs =>
    if seqOk lseq x.sequence && tsOk lts x.timestamp then
      x :: filteredSubseq (some x.sequence) (some x.timestamp) xs
    else filteredSubseq lseq lts xs

/-- One final eviction pass relative to the latest timestamp of the list
itself (the identity on the empty list). -/
def evictFinal (horizon : Nat) (l : List DepthSnapshot) : List DepthSnapshot :=
  match l.getLast? with
  | none => l
  | some m => evict horizon m.timestamp l

/-- Modelled from the spec: the two detection kinds (section 3). -/
inductive DetectionKind where
  | DepthAnomaly
  | LiquidityShrinkage
deriving DecidableEq, Repr

/-- Modelled from the spec: `DetectionEvent` (section 3) — symbol, timestamp
of the triggering snapshot, kind, numeric severity, and a kind-specific
detail metric (delta magnitude for depth anomalies, trend slope for
liquidity shrinkage). -/
structure DetectionEvent where
  symbol : String
  timestamp : Nat
  kind : DetectionKind
  severity : Q
  details : Q
deriving DecidableEq, Repr

/-! ## DepthAnomalyDetector (modelled from the spec, section 4.3) -/

/-- Insertion of a rational into a sorted list (ascending). -/
def insortQ (x : Q) : List Q → List Q
  | [] => [x]
  | y :: ys => if x ≤ y then x :: y :: ys else y :: insortQ x ys

/-- Insertion sort, ascending. -/
def sortQ : List Q → List Q
  | [] => []
  | x :: xs => insortQ x (sortQ xs)

/-- Median of a list of rationals (0 for the empty list; the mean of the two
middle elements for even length). -/
def median (l : List Q) : Q :=
  let s := sortQ l
  let n := s.length
  if n = 0 then 0
  else if n % 2 = 1 then s.getD (n / 2) 0
  else (s.getD (n / 2 - 1) 0 + s.getD (n / 2) 0) / 2

/-- Configuration of the depth-anomaly detector: the relative-change
threshold, the rolling-median baseline length N, and the absolute floor used
when the baseline is zero. -/
structure AnomalyConfig where
  threshold : Q
  baselineN : Nat
  absFloor : Q
deriving DecidableEq, Repr

/-- Modelled from the spec: the per-side check of section 4.3.  With a
nonzero baseline, the relative change `|depth - baseline| / baseline` is
compared against the threshold and is itself the severity; with a zero
baseline the detector falls back to an absolute-change comparison against
the configured floor. -/
def sideSeverity (cfg : AnomalyConfig) (base d : Q) : Option Q :=
  if base = 0 then
    if d ≠ 0 ∧ cfg.absFloor < Q.abs d then some (Q.abs d) else none
  else
    let r := Q.abs (d - base) / base
    if cfg.threshold < r then some r else none

/-- Modelled from the spec: `DepthAnomalyDetector` (section 4.3) — on each
insert, compare the new snapshot's bid and ask depth to the rolling median of
the last N prior snapshots; fewer than N prior snapshots means no detection.
A triggered side yields one `DetectionEvent` with kind `DepthAnomaly` and
severity the relative-change value (bid side checked first). -/
def depthAnomalyDetect (cfg : AnomalyConfig) (prior : List DepthSnapshot)
    (s : DepthSnapshot) : Option DetectionEvent :=
  if prior.length < cfg.baselineN then none
  else
    let lastN := prior.drop (prior.length - cfg.baselineN)
    let bidBase := median (lastN.map DepthSnapshot.bid_depth)
    let askBase := median (lastN.map DepthSnapshot.ask_depth)
    match sideSeverity cfg bidBase s.bid_depth with
    | some r => some ⟨s.symbol, s.timestamp, .DepthAnomaly, r, r⟩
    | none =>
      match sideSeverity cfg askBase s.ask_depth with
      | some r => some ⟨s.symbol, s.timestamp, .DepthAnomaly, r, r⟩
      | none => none

/-! ## LiquidityShrinkageDetector (modelled from the spec, section 4.4) -/

/-- Sum of a list of rationals. -/
def sumQ (l : List Q) : Q := l.foldl (· + ·) 0

/-- Least-squares slope of a list of (time, value) points, 0 when the
denominator vanishes (fewer than two distinct times). -/
def lsSlope (pts : List (Q × Q)) : Q :=
  let n : Q := Q.ofNat pts.length
  let sx := sumQ (pts.map Prod.fst)
  let sy := sumQ (pts.map Prod.snd)
  let sxx := sumQ (pts.map (fun p => p.1 * p.1))
  let sxy := sumQ (pts.map (fun p => p.1 * p.2))
  (n * sxy - sx * sy) / (n * sxx - sx * sx)

/-- Number of strictly decreasing consecutive pairs. -/
def decPairs : List Q → Nat
  | [] => 0
  | [_] => 0
  | x :: y :: ys => (if y < x then 1 else 0) + decPairs (y :: ys)

/-- Fraction of consecutive pairs that strictly decrease (0 for lists of
length at most one). -/
def monoFrac (l : List Q) : Q :=
  if l.length ≤ 1 then 0 else Q.ofNat (decPairs l) / Q.ofNat (l.length - 1)

/-- Combined depth used by the shrinkage detector: bid plus ask. -/
def combinedDepth (s : DepthSnapshot) : Q := s.bid_depth + s.ask_depth

/-- Configuration of the liquidity-shrinkage detector: the view horizon, the
minimum snapshot count within it, the normalized-slope threshold, the
minimum fraction of consecutive decreasing pairs, and the cooldown window. -/
structure ShrinkConfig where
  viewDuration : Nat
  minCount : Nat
  slopeThreshold : Q
  monoThreshold : Q
  cooldown : Nat
deriving DecidableEq, Repr

/-- Modelled from the spec: `snapshots_in_range(duration)` (section 4.2) —
the read-only suffix view covering the last `duration` of event time,
relative to the newest stored timestamp. -/
def SymbolWindow.snapshotsInRange (w : SymbolWindow) (d : Nat) :
    List DepthSnapshot :=
  match w.newestTs with
  | none => []
  | some now => w.snapshots.filter (fun s => now ≤ s.timestamp + d)

/-- Modelled from the spec: the trend test of section 4.4.  Requires a
minimum snapshot count in the view, a negative least-squares slope of
combined depth over time, a normalized slope magnitude (divided by the mean
depth) above the threshold, and a monotone-enough decline.  Returns
`(slope, severity)` when the shrinking trend is present. -/
def shrinkTrend (cfg : ShrinkConfig) (view : List DepthSnapshot) :
    Option (Q × Q) :=
  let depths := view.map combinedDepth
  if view.length < cfg.minCount then none
  else
    let slope :=
      lsSlope (view.map (fun s => (Q.ofNat s.timestamp, combinedDepth s)))
    let mean := sumQ depths / Q.ofNat view.length
    if slope < 0 ∧ (-slope) / mean > cfg.slopeThreshold ∧
        monoFrac depths ≥ cfg.monoThreshold then
      some (slope, (-slope) / mean)
    else none

/-- Modelled from the spec: `LiquidityShrinkageDetector` (section 4.4) — runs
the trend test on the window's view; while the trend persists it emits only
if no prior emission is pending or the cooldown has elapsed, recording the
emission timestamp; when the trend is absent it re-arms (clears the pending
emission timestamp).  Returns the optional event and the new detector
state. -/
def shrinkStep (cfg : ShrinkConfig) (lastEmit : Option Nat) (w : SymbolWindow)
    (now : Nat) (sym : String) : Option DetectionEvent × Option Nat :=
  match shrinkTrend cfg (w.snapshotsInRange cfg.viewDuration) with
  | none => (none, none)
  | some (slope, sev) =>
    match lastEmit with
    | none => (some ⟨sym, now, .LiquidityShrinkage, sev, slope⟩, some now)
    | some t =>
      if t + cfg.cooldown ≤ now then
        (some ⟨sym, now, .LiquidityShrinkage, sev, slope⟩, some now)
      else (none, some t)

/-! ## DetectionEmitter (modelled from the spec, section 4.5) -/

/-- Modelled from the spec: `DetectionEmitter` (section 4.5) — buffers events
and flushes to the sink in batches.  `writes` records the batches written to
the sink, in order.  The time-based flush trigger and the retry/backoff on
sink failure are outside this model (they need a wall clock and a fallible
sink); the size trigger and the drain-time flush are modelled. -/
structure Emitter (α : Type) where
  batchSize : Nat
  buffer : List α
  writes : List (List α)
deriving DecidableEq, Repr

/-- A fresh emitter with the given batch size. -/
def Emitter.fresh (α : Type) (n : Nat) : Emitter α :=
  { batchSize := n, buffer := [], writes := [] }

/-- Buffer one event; when the buffer reaches the batch size, write it to the
sink as one batch. -/
def Emitter.emit (em : Emitter α) (e : α) : Emitter α :=
  let buf := em.buffer ++ [e]
  if em.batchSize ≤ buf.length then
    { em with buffer := [], writes := em.writes ++ [buf] }
  else { em with buffer := buf }

/-- Emit a whole list of events, in order. -/
def Emitter.emitAll (em : Emitter α) (es : List α) : Emitter α :=
  es.foldl Emitter.emit em

/-- Drain-time flush: write any pending partial batch. -/
def Emitter.flush (em : Emitter α) : Emitter α :=
  if em.buffer.isEmpty then em
  else { em with buffer := [], writes := em.writes ++ [em.buffer] }

/-! ## Per-symbol pipeline (modelled from the spec, section 4.6) -/

/-- Detector configuration of one pipeline. -/
structure PipelineConfig where
  anomaly : AnomalyConfig
  shrink : ShrinkConfig
deriving DecidableEq, Repr

/-- State of one symbol's slice of the pipeline: the window and the
shrinkage detector's pending-emission timestamp. -/
structure PipelineState where
  window : SymbolWindow
  shrinkLastEmit : Option Nat
deriving DecidableEq, Repr

/-- Modelled from the spec: the Coordinator's routing step (section 4.6) —
insert the snapshot into the symbol's window; a window update triggers both
detectors (the anomaly detector compares the new snapshot against the prior
stored snapshots); a rejected snapshot updates no state besides the
rejection counters and triggers no detector. -/
def pipelineStep (cfg : PipelineConfig) (st : PipelineState)
    (s : DepthSnapshot) : PipelineState × List DetectionEvent :=
  if (st.window.insert s).2 then
    ({ window := (st.window.insert s).1,
       shrinkLastEmit := (shrinkStep cfg.shrink st.shrinkLastEmit
         (st.window.insert s).1 s.timestamp s.symbol).2 },
     (depthAnomalyDetect cfg.anomaly st.window.snapshots s).toList ++
       (shrinkStep cfg.shrink st.shrinkLastEmit (st.window.insert s).1
         s.timestamp s.symbol).1.toList)
  else ({ st with window := (st.window.insert s).1 }, [])

/-- Run the pipeline over a list of snapshots, collecting all emitted
detection events in order. -/
def runPipeline (cfg : PipelineConfig) (st : PipelineState) :
    List DepthSnapshot → PipelineState × List DetectionEvent
  | [] => (st, [])
  | x :: xs =>
    let r1 := pipelineStep cfg st x
    let r2 := runPipeline cfg r1.1 xs
    (r2.1, r1.2 ++ r2.2)

/-! ## Concrete scenarios from the spec's testable properties (section 8) -/

/-- The empty process environment: every variable unset. -/
def envEmpty : Env := fun _ => none

/-- An environment agreeing with `envEmpty` on the three variables `main`
reads but differing on an unrelated variable. -/
def envOther : Env := fun k => if k = "SOME_OTHER_VAR" then some "1" else none

/-- Depth-anomaly scenario configuration: threshold 1/2 (50%), baseline
length 5, absolute floor 10. -/
def c6cfg : AnomalyConfig := { threshold := 1/2, baselineN := 5, absFloor := 10 }

/-- A baseline snapshot with bid and ask depth 100 at time `i`. -/
def baseSnap (i : Nat) : DepthSnapshot := ⟨"BTC", i, 100, 100, i + 1⟩

/-- Five baseline snapshots with bid depth 100 each. -/
def c6prior : List DepthSnapshot := (List.range 5).map baseSnap

/-- Shrinkage scenario depth profile: linear decline from 1000 at time 0 to
200 at time 19 (the 20 snapshots over the horizon), then a continued strict
decline of 4 per step for the 30 subsequent inserts (196 down to 80). -/
def c7depth (t : Nat) : Q :=
  if t < 20 then 1000 - Q.frac 800 19 * Q.ofNat t
  else 200 - 4 * (Q.ofNat t - 19)

/-- Shrinkage scenario snapshot at time `t`: all depth on the bid side. -/
def c7snap (t : Nat) : DepthSnapshot := ⟨"BTC", t, c7depth t, 0, t + 1⟩

/-- The 50 shrinkage-scenario snapshots (20 over the declining horizon, then
30 further inserts inside the cooldown window with the trend continuing). -/
def c7inputs : List DepthSnapshot := (List.range 50).map c7snap

/-- Shrinkage scenario configuration: slope threshold 1/1000, well below the
implied normalized slope (4/87 at the first crossing), monotonicity
threshold 4/5, cooldown 1000 (covering all 50 inserts), view horizon
1000. -/
def c7shrink : ShrinkConfig :=
  { viewDuration := 1000, minCount := 5, slopeThreshold := 1 / 1000,
    monoThreshold := 4 / 5, cooldown := 1000 }

/-- Anomaly configuration for the shrinkage scenario, with thresholds high
enough that the depth-anomaly detector stays silent. -/
def c7anom : AnomalyConfig := { threshold := 100, baselineN := 5, absFloor := 1000000 }

/-- Pipeline configuration for the shrinkage scenario. -/
def c7cfg : PipelineConfig := { anomaly := c7anom, shrink := c7shrink }

/-- Initial pipeline state for the shrinkage scenario: a fresh window with
retention horizon 1000. -/
def c7init : PipelineState :=
  { window := SymbolWindow.fresh "BTC" 1000, shrinkLastEmit := none }

/-- A dummy detection event used to exercise the emitter. -/
def mkEv (i : Nat) : DetectionEvent := ⟨"SYM", i, .DepthAnomaly, 1, 0⟩

/-- `n` dummy detection events. -/
def evs (n : Nat) : List DetectionEvent := (List.range n).map mkEv

/-- The retention property of a window: every stored snapshot is within the
retention horizon of the newest stored timestamp. -/
def SymbolWindow.retentionOk (w : SymbolWindow) : Prop :=
  ∀ s ∈ w.snapshots, ∀ m ∈ w.newestTs, m ≤ s.timestamp + w.horizon

/-- Pointwise order on optional naturals (`none` below everything). -/
def optLeN : Option Nat → Option Nat → Prop
  | none, _ => True
  | some _, none => False
  | some x, some y => x ≤ y

/-- The state a window keeps about a snapshot it has already processed: the
window's last observed sequence is at or beyond the snapshot's sequence, or
its newest stored timestamp is beyond the snapshot's timestamp.  Either
condition makes `insert` reject the snapshot. -/
def windowBarrier (s : DepthSnapshot) (w : SymbolWindow) : Prop :=
  (∃ l, w.last_sequence = some l ∧ s.sequence ≤ l) ∨
  (∃ m, w.newestTs = some m ∧ s.timestamp < m)

/-! ## Theorems -/

/-- Eviction keeps a just-inserted snapshot whose timestamp is the eviction
reference time. -/
theorem evict_append_single (h t : Nat) (l : List DepthSnapshot)
    (s : DepthSnapshot) (hs : t ≤ s.timestamp + h) :
    evict h t (l ++ [s]) = evict h t l ++ [s] := by
  simp [evict, hs]

/-- Eviction is idempotent at a fixed reference time. -/
theorem evict_idem (h t : Nat) (l : List DepthSnapshot) :
    evict h t (evict h t l) = evict h t l := by
  simp [evict, List.filter_filter]

/-- A later eviction subsumes an earlier one. -/
theorem evict_absorb (h : Nat) {t T : Nat} (hT : t ≤ T)
    (l : List DepthSnapshot) : evict h T (evict h t l) = evict h T l := by
  simp only [evict, List.filter_filter]
  apply List.filter_congr
  intro a _
  by_cases hc : T ≤ a.timestamp + h
  · simp [hc, Nat.le_trans hT hc]
  · simp [hc]

/-- A failing timestamp test means the window is nonempty with a newer
newest entry. -/
theorem tsOk_false {o : Option Nat} {t : Nat} (h : tsOk o t = false) :
    ∃ m, o = some m ∧ t < m := by
  cases o with
  | none => simp [tsOk] at h
  | some m => exact ⟨m, rfl, by simpa [tsOk, Nat.not_le] using h⟩

/-- A failing sequence test means a last observed sequence at or beyond the
new one. -/
theorem seqOk_false {o : Option Nat} {q : Nat} (h : seqOk o q = false) :
    ∃ l, o = some l ∧ q ≤ l := by
  cases o with
  | none => simp [seqOk] at h
  | some l => exact ⟨l, rfl, by simpa [seqOk, Nat.not_lt] using h⟩

/-- Every snapshot kept by the filtered subsequence is at or after the
timestamp accumulator. -/
theorem filteredSubseq_ts_le (xs : List DepthSnapshot) :
    ∀ (lsq : Option Nat) (t : Nat) (y : DepthSnapshot),
      y ∈ filteredSubseq lsq (some t) xs → t ≤ y.timestamp := by
  induction xs with
  | nil => intro lsq t y hy; simp [filteredSubseq] at hy
  | cons x xs ih =>
    intro lsq t y hy
    by_cases hg : (seqOk lsq x.sequence && tsOk (some t) x.timestamp) = true
    · simp only [filteredSubseq] at hy
      rw [if_pos hg] at hy
      have ht : t ≤ x.timestamp := by
        have h2 := (Bool.and_eq_true_iff.mp hg).2
        simpa [tsOk] using h2
      rcases List.mem_cons.mp hy with rfl | hy'
      · exact ht
      · exact Nat.le_trans ht (ih (some x.sequence) x.timestamp y hy')
    · simp only [filteredSubseq] at hy
      rw [if_neg hg] at hy
      exact ih lsq t y hy

/-- Commuting one step of eviction past a suffix of later snapshots: the
final eviction of the whole list subsumes the intermediate one. -/
theorem evictFinal_evict_prefix (h t : Nat) (A F : List DepthSnapshot)
    (x : DepthSnapshot) (hx : x.timestamp = t)
    (hF : ∀ y ∈ F, t ≤ y.timestamp) :
    evictFinal h ((evict h t A ++ [x]) ++ F) = evictFinal h (A ++ x :: F) := by
  cases F with
  | nil =>
    subst hx
    simp only [List.append_nil]
    unfold evictFinal
    rw [List.getLast?_concat, List.getLast?_concat]
    rw [← evict_append_single h x.timestamp A x (Nat.le_add_right _ _)]
    exact evict_idem _ _ _
  | cons f F' =>
    have hne : (f :: F') ≠ [] := by simp
    unfold evictFinal
    rw [List.getLast?_append_of_ne_nil _ hne,
      List.getLast?_append_of_ne_nil _ (show (x :: f :: F') ≠ [] by simp),
      List.getLast?_cons_cons]
    cases hg : (f :: F').getLast? with
    | none => simp at hg
    | some g =>
      have hgmem : g ∈ f :: F' :=
        List.mem_of_mem_getLast? (by rw [hg]; rfl)
      have htg : t ≤ g.timestamp := hF g hgmem
      have habs : evict h g.timestamp (evict h t A) = evict h g.timestamp A :=
        evict_absorb h htg A
      have e2 : A ++ x :: f :: F' = (A ++ [x]) ++ f :: F' := by simp
      rw [e2]
      calc evict h g.timestamp ((evict h t A ++ [x]) ++ f :: F')
          = evict h g.timestamp (evict h t A) ++
              evict h g.timestamp ([x] ++ f :: F') := by
            rw [List.append_assoc]
            unfold evict
            rw [List.filter_append]
        _ = evict h g.timestamp A ++ evict h g.timestamp ([x] ++ f :: F') := by
            rw [habs]
        _ = evict h g.timestamp ((A ++ [x]) ++ f :: F') := by
            rw [List.append_assoc]
            simp [evict, List.filter_append]

/-- The stored contents after delivering `xs` to a window whose contents are
already within the horizon of its newest entry: the greedy filtered
subsequence appended to the prior contents, with one final eviction relative
to the latest timestamp. -/
theorem insertAll_snapshots (xs : List DepthSnapshot) :
    ∀ (w : SymbolWindow),
      evictFinal w.horizon w.snapshots = w.snapshots →
      (w.insertAll xs).snapshots
        = evictFinal w.horizon
            (w.snapshots ++ filteredSubseq w.last_sequence w.newestTs xs) := by
  induction xs with
  | nil =>
    intro w hw
    simpa [SymbolWindow.insertAll, filteredSubseq] using hw.symm
  | cons x xs ih =>
    intro w hw
    have hstep : w.insertAll (x :: xs) = ((w.insert x).1).insertAll xs := rfl
    rw [hstep]
    by_cases hacc : (seqOk w.last_sequence x.sequence &&
        tsOk w.newestTs x.timestamp) = true
    · have e1 : evict w.horizon x.timestamp (w.snapshots ++ [x])
          = evict w.horizon x.timestamp w.snapshots ++ [x] :=
        evict_append_single _ _ _ _ (Nat.le_add_right _ _)
      have hw1 : (w.insert x).1 = { w with
          snapshots := evict w.horizon x.timestamp (w.snapshots ++ [x]),
          last_sequence := some x.sequence } := by
        unfold SymbolWindow.insert
        rw [if_pos hacc]
      have hnew : ({ w with
          snapshots := evict w.horizon x.timestamp (w.snapshots ++ [x]),
          last_sequence := some x.sequence } : SymbolWindow).newestTs
          = some x.timestamp := by
        simp [SymbolWindow.newestTs, e1, List.getLast?_concat]
      have hPre : evictFinal ({ w with
          snapshots := evict w.horizon x.timestamp (w.snapshots ++ [x]),
          last_sequence := some x.sequence } : SymbolWindow).horizon
          ({ w with
          snapshots := evict w.horizon x.timestamp (w.snapshots ++ [x]),
          last_sequence := some x.sequence } : SymbolWindow).snapshots
          = ({ w with
          snapshots := evict w.horizon x.timestamp (w.snapshots ++ [x]),
          last_sequence := some x.sequence } : SymbolWindow).snapshots := by
        show evictFinal w.horizon
            (evict w.horizon x.timestamp (w.snapshots ++ [x]))
          = evict w.horizon x.timestamp (w.snapshots ++ [x])
        rw [e1]
        unfold evictFinal
        rw [List.getLast?_concat]
        rw [← evict_append_single w.horizon x.timestamp w.snapshots x
          (Nat.le_add_right _ _)]
        exact evict_idem _ _ _
      rw [hw1]
      rw [ih _ hPre]
      have hguard : filteredSubseq w.last_sequence w.newestTs (x :: xs)
          = x :: filteredSubseq (some x.sequence) (some x.timestamp) xs := by
        simp only [filteredSubseq]
        rw [if_pos hacc]
      rw [hguard]
      have hlast : ({ w with
          snapshots := evict w.horizon x.timestamp (w.snapshots ++ [x]),
          last_sequence := some x.sequence } : SymbolWindow).last_sequence
          = some x.sequence := rfl
      rw [hlast, hnew]
      show evictFinal w.horizon
          (evict w.horizon x.timestamp (w.snapshots ++ [x]) ++
            filteredSubseq (some x.sequence) (some x.timestamp) xs)
        = evictFinal w.horizon (w.snapshots ++
            x :: filteredSubseq (some x.sequence) (some x.timestamp) xs)
      rw [e1]
      exact evictFinal_evict_prefix w.horizon x.timestamp w.snapshots
        (filteredSubseq (some x.sequence) (some x.timestamp) xs) x rfl
        (fun y hy => filteredSubseq_ts_le xs (some x.sequence) x.timestamp y hy)
    · have hguard : filteredSubseq w.last_sequence w.newestTs (x :: xs)
          = filteredSubseq w.last_sequence w.newestTs xs := by
        simp only [filteredSubseq]
        rw [if_neg hacc]
      rw [hguard]
      unfold SymbolWindow.insert
      rw [if_neg hacc]
      split
      · exact ih _ hw
      · exact ih _ hw

/-- Counting: every delivered snapshot is either kept by the greedy filter
or counted once as a duplicate or a sequence gap. -/
theorem insertAll_counts (xs : List DepthSnapshot) :
    ∀ (w : SymbolWindow),
      (w.insertAll xs).dup_count + (w.insertAll xs).gap_count
        + (filteredSubseq w.last_sequence w.newestTs xs).length
      = w.dup_count + w.gap_count + xs.length := by
  induction xs with
  | nil => intro w; simp [SymbolWindow.insertAll, filteredSubseq]
  | cons x xs ih =>
    intro w
    have hstep : w.insertAll (x :: xs) = ((w.insert x).1).insertAll xs := rfl
    rw [hstep]
    by_cases hacc : (seqOk w.last_sequence x.sequence &&
        tsOk w.newestTs x.timestamp) = true
    · have e1 : evict w.horizon x.timestamp (w.snapshots ++ [x])
          = evict w.horizon x.timestamp w.snapshots ++ [x] :=
        evict_append_single _ _ _ _ (Nat.le_add_right _ _)
      have hw1 : (w.insert x).1 = { w with
          snapshots := evict w.horizon x.timestamp (w.snapshots ++ [x]),
          last_sequence := some x.sequence } := by
        unfold SymbolWindow.insert
        rw [if_pos hacc]
      have hguard : filteredSubseq w.last_sequence w.newestTs (x :: xs)
          = x :: filteredSubseq (some x.sequence) (some x.timestamp) xs := by
        simp only [filteredSubseq]
        rw [if_pos hacc]
      rw [hw1, hguard]
      have hih := ih { w with
          snapshots := evict w.horizon x.timestamp (w.snapshots ++ [x]),
          last_sequence := some x.sequence }
      have hnew : ({ w with
          snapshots := evict w.horizon x.timestamp (w.snapshots ++ [x]),
          last_sequence := some x.sequence } : SymbolWindow).newestTs
          = some x.timestamp := by
        simp [SymbolWindow.newestTs, e1, List.getLast?_concat]
      rw [show ({ w with
          snapshots := evict w.horizon x.timestamp (w.snapshots ++ [x]),
          last_sequence := some x.sequence } : SymbolWindow).last_sequence
          = some x.sequence from rfl, hnew] at hih
      dsimp only at hih ⊢
      simp only [List.length_cons]
      omega
    · have hguard : filteredSubseq w.last_sequence w.newestTs (x :: xs)
          = filteredSubseq w.last_sequence w.newestTs xs := by
        simp only [filteredSubseq]
        rw [if_neg hacc]
      rw [hguard]
      unfold SymbolWindow.insert
      rw [if_neg hacc]
      split
      · have hih := ih { w with dup_count := w.dup_count + 1 }
        rw [show ({ w with dup_count := w.dup_count + 1 } :
          SymbolWindow).newestTs = w.newestTs from rfl] at hih
        dsimp only at hih ⊢
        simp only [List.length_cons]
        omega
      · have hih := ih { w with gap_count := w.gap_count + 1 }
        rw [show ({ w with gap_count := w.gap_count + 1 } :
          SymbolWindow).newestTs = w.newestTs from rfl] at hih
        dsimp only at hih ⊢
        simp only [List.length_cons]
        omega

/-- A single insert preserves the retention property. -/
theorem insert_retentionOk (w : SymbolWindow) (s : DepthSnapshot)
    (hw : w.retentionOk) : (w.insert s).1.retentionOk := by
  unfold SymbolWindow.insert
  by_cases hacc : (seqOk w.last_sequence s.sequence &&
      tsOk w.newestTs s.timestamp) = true
  · rw [if_pos hacc]
    intro x hx m hm
    have e1 : evict w.horizon s.timestamp (w.snapshots ++ [s])
        = evict w.horizon s.timestamp w.snapshots ++ [s] :=
      evict_append_single _ _ _ _ (Nat.le_add_right _ _)
    simp only [SymbolWindow.newestTs, e1, List.getLast?_concat] at hm
    have hm' : m = s.timestamp := by simpa using hm.symm
    subst hm'
    rw [show ({ w with
        snapshots := evict w.horizon s.timestamp (w.snapshots ++ [s]),
        last_sequence := some s.sequence } : SymbolWindow).snapshots
      = evict w.horizon s.timestamp (w.snapshots ++ [s]) from rfl, e1] at hx
    rcases List.mem_append.mp hx with hx | hx
    · simp only [evict] at hx
      simpa using (List.mem_filter.mp hx).2
    · have hxs : x = s := by simpa using hx
      subst hxs
      exact Nat.le_add_right _ _
  · rw [if_neg hacc]
    split
    · exact hw
    · exact hw

/-- Delivering any sequence of snapshots preserves the retention property. -/
theorem insertAll_retentionOk (xs : List DepthSnapshot) :
    ∀ (w : SymbolWindow), w.retentionOk → (w.insertAll xs).retentionOk := by
  induction xs with
  | nil => intro w hw; exact hw
  | cons x xs ih =>
    intro w hw
    exact ih _ (insert_retentionOk w x hw)

/-- The last observed sequence never decreases across an insert. -/
theorem insert_lastSeq_mono (w : SymbolWindow) (s : DepthSnapshot) :
    optLeN w.last_sequence ((w.insert s).1).last_sequence := by
  unfold SymbolWindow.insert
  by_cases hacc : (seqOk w.last_sequence s.sequence &&
      tsOk w.newestTs s.timestamp) = true
  · rw [if_pos hacc]
    have hseq := (Bool.and_eq_true_iff.mp hacc).1
    rcases h : w.last_sequence with _ | l
    · trivial
    · rw [h] at hseq
      simp only [seqOk] at hseq
      exact Nat.le_of_lt (of_decide_eq_true hseq)
  · rw [if_neg hacc]
    split
    · rcases h : w.last_sequence with _ | l
      · trivial
      · exact Nat.le_refl l
    · rcases h : w.last_sequence with _ | l
      · trivial
      · exact Nat.le_refl l

/-- The newest stored timestamp never decreases across an insert. -/
theorem insert_newest_mono (w : SymbolWindow) (s : DepthSnapshot) :
    optLeN w.newestTs ((w.insert s).1).newestTs := by
  unfold SymbolWindow.insert
  by_cases hacc : (seqOk w.last_sequence s.sequence &&
      tsOk w.newestTs s.timestamp) = true
  · rw [if_pos hacc]
    have hts := (Bool.and_eq_true_iff.mp hacc).2
    have e1 : evict w.horizon s.timestamp (w.snapshots ++ [s])
        = evict w.horizon s.timestamp w.snapshots ++ [s] :=
      evict_append_single _ _ _ _ (Nat.le_add_right _ _)
    have hnew : ({ w with
        snapshots := evict w.horizon s.timestamp (w.snapshots ++ [s]),
        last_sequence := some s.sequence } : SymbolWindow).newestTs
        = some s.timestamp := by
      simp [SymbolWindow.newestTs, e1, List.getLast?_concat]
    rw [hnew]
    rcases h : w.newestTs with _ | m
    · trivial
    · rw [h] at hts
      simp only [tsOk] at hts
      have hle : m ≤ s.timestamp := by simpa using hts
      exact hle
  · rw [if_neg hacc]
    split
    · rcases h : w.newestTs with _ | m
      · trivial
      · simp only [SymbolWindow.newestTs] at h ⊢
        rw [h]
        exact Nat.le_refl m
    · rcases h : w.newestTs with _ | m
      · trivial
      · simp only [SymbolWindow.newestTs] at h ⊢
        rw [h]
        exact Nat.le_refl m

/-- After processing a snapshot — accepted or rejected — the window carries a
barrier against it: its sequence is now at or below the last observed one,
or its timestamp behind the newest stored entry. -/
theorem insert_establishes (w : SymbolWindow) (s : DepthSnapshot) :
    windowBarrier s (w.insert s).1 := by
  unfold SymbolWindow.insert
  by_cases hacc : (seqOk w.last_sequence s.sequence &&
      tsOk w.newestTs s.timestamp) = true
  · rw [if_pos hacc]
    exact Or.inl ⟨s.sequence, rfl, Nat.le_refl _⟩
  · rw [if_neg hacc]
    have hor : seqOk w.last_sequence s.sequence = false ∨
        tsOk w.newestTs s.timestamp = false := by
      cases hs : seqOk w.last_sequence s.sequence
      · exact Or.inl rfl
      · cases ht : tsOk w.newestTs s.timestamp
        · exact Or.inr rfl
        · exact absurd (by rw [hs, ht]; rfl) hacc
    rcases hor with hs | ht
    · obtain ⟨l, hl, hle⟩ := seqOk_false hs
      split
      · exact Or.inl ⟨l, hl, hle⟩
      · exact Or.inl ⟨l, hl, hle⟩
    · obtain ⟨m, hm, hlt⟩ := tsOk_false ht
      split
      · exact Or.inr ⟨m, hm, hlt⟩
      · exact Or.inr ⟨m, hm, hlt⟩

/-- Later inserts preserve the barrier (monotonicity of the window state). -/
theorem insert_preserves_barrier (w : SymbolWindow) (x s : DepthSnapshot)
    (h : windowBarrier s w) : windowBarrier s (w.insert x).1 := by
  rcases h with ⟨l, hl, hle⟩ | ⟨m, hm, hlt⟩
  · have hmono := insert_lastSeq_mono w x
    rw [hl] at hmono
    rcases hl' : ((w.insert x).1).last_sequence with _ | l'
    · rw [hl'] at hmono; cases hmono
    · rw [hl'] at hmono
      exact Or.inl ⟨l', hl', Nat.le_trans hle hmono⟩
  · have hmono := insert_newest_mono w x
    rw [hm] at hmono
    rcases hm' : ((w.insert x).1).newestTs with _ | m'
    · rw [hm'] at hmono; cases hmono
    · rw [hm'] at hmono
      exact Or.inr ⟨m', hm', Nat.lt_of_lt_of_le hlt hmono⟩

/-- The pipeline step updates the window exactly by `insert`. -/
theorem pipelineStep_window (cfg : PipelineConfig) (st : PipelineState)
    (x : DepthSnapshot) :
    (pipelineStep cfg st x).1.window = (st.window.insert x).1 := by
  unfold pipelineStep
  split
  · rfl
  · rfl

/-- Running any suffix of the stream preserves the barrier. -/
theorem run_preserves_barrier (cfg : PipelineConfig) (s : DepthSnapshot) :
    ∀ (xs : List DepthSnapshot) (st : PipelineState),
      windowBarrier s st.window →
      windowBarrier s (runPipeline cfg st xs).1.window := by
  intro xs
  induction xs with
  | nil => intro st h; exact h
  | cons x xs ih =>
    intro st h
    have h1 : windowBarrier s (pipelineStep cfg st x).1.window := by
      rw [pipelineStep_window]
      exact insert_preserves_barrier _ _ _ h
    simpa [runPipeline] using ih _ h1

/-- After running the pipeline over an input containing `s`, the state
carries a barrier against `s`. -/
theorem run_establishes_barrier (cfg : PipelineConfig) (s : DepthSnapshot) :
    ∀ (xs : List DepthSnapshot), s ∈ xs → ∀ (st : PipelineState),
      windowBarrier s (runPipeline cfg st xs).1.window := by
  intro xs
  induction xs with
  | nil => intro h; cases h
  | cons x xs ih =>
    intro hmem st
    rcases List.mem_cons.mp hmem with heq | hmem'
    · subst heq
      have h1 : windowBarrier s (pipelineStep cfg st s).1.window := by
        rw [pipelineStep_window]
        exact insert_establishes _ _
      simpa [runPipeline] using run_preserves_barrier cfg s xs _ h1
    · simpa [runPipeline] using ih hmem' (pipelineStep cfg st x).1

/-- A barrier makes `insert` reject the snapshot. -/
theorem barrier_rejects (w : SymbolWindow) (s : DepthSnapshot)
    (h : windowBarrier s w) : (w.insert s).2 = false := by
  unfold SymbolWindow.insert
  have hacc : (seqOk w.last_sequence s.sequence &&
      tsOk w.newestTs s.timestamp) = false := by
    rcases h with ⟨l, hl, hle⟩ | ⟨m, hm, hlt⟩
    · have hs : seqOk w.last_sequence s.sequence = false := by
        rw [hl]
        simp [seqOk, Nat.not_lt.mpr hle]
      rw [hs, Bool.false_and]
    · have ht : tsOk w.newestTs s.timestamp = false := by
        rw [hm]
        simp [tsOk, Nat.not_le.mpr hlt]
      rw [ht, Bool.and_false]
  rw [if_neg (by rw [hacc]; exact Bool.false_ne_true)]
  split
  · rfl
  · rfl

/-- C1 counterexample: on the concrete empty environment, `main` fetches
exactly the three time-series store variables, while the spec's recognized
configuration list has eleven distinct options — so the program does not read
the full set (in particular no queue, threshold, retention, or batching
option is read). -/
theorem mainRun_reads_miss_spec_options :
    (mainRun envEmpty).reads = ["INFLUX_URL", "INFLUX_ORG", "INFLUX_BUCKET"] ∧
    specConfigOptions.length = 11 ∧
    (mainRun envEmpty).reads.length < specConfigOptions.length := by
  decide

/-- C1 (amended): for every process environment, `main` reads exactly the
three time-series store configuration variables `INFLUX_URL`, `INFLUX_ORG`
and `INFLUX_BUCKET`, and no other configuration option. -/
theorem mainRun_reads_exactly_influx (env : Env) :
    (mainRun env).reads = ["INFLUX_URL", "INFLUX_ORG", "INFLUX_BUCKET"] := rfl

/-- C2 counterexample: in the environment where every variable is unset (so
the configured sink connection URL is absent), `main` still terminates with
exit status 0, contradicting the claimed non-zero exit on unreachable
source/sink. -/
theorem mainRun_exit_zero_on_missing_url :
    (mainRun envEmpty).exitCode = 0 := rfl

/-- C2 (amended): `main` terminates with exit status 0 for every process
environment, including one in which the connection URL is absent; the
skeleton performs no startup reachability check and has no failure path. -/
theorem mainRun_exitCode_always_zero (env : Env) :
    (mainRun env).exitCode = 0 := rfl

/-- C3: no exception surfaces past the pipeline boundary — for every process
environment, including one with all of `INFLUX_URL`, `INFLUX_ORG` and
`INFLUX_BUCKET` unset, the body of `main` completes normally (returns `ok`,
never an exception). -/
theorem mainBody_never_raises (env : Env) :
    ∃ r, mainBody env = Except.ok r := ⟨_, rfl⟩

/-- C10: `main` is deterministic and its observable behavior depends only on
`INFLUX_URL`, `INFLUX_ORG` and `INFLUX_BUCKET`: two environments agreeing on
those three (present or absent) produce identical results, whatever the
other variables hold. -/
theorem mainRun_depends_only_on_influx (env1 env2 : Env)
    (h1 : env1 "INFLUX_URL" = env2 "INFLUX_URL")
    (h2 : env1 "INFLUX_ORG" = env2 "INFLUX_ORG")
    (h3 : env1 "INFLUX_BUCKET" = env2 "INFLUX_BUCKET") :
    mainRun env1 = mainRun env2 := by
  simp only [mainRun, mainBody, h1, h2, h3]

/-- C10 witness: the two concrete environments agree on the three variables
`main` reads (both leave them unset) while differing elsewhere, and the two
runs coincide. -/
theorem mainRun_depends_only_on_influx_witness :
    envEmpty "INFLUX_URL" = envOther "INFLUX_URL" ∧
    envEmpty "INFLUX_ORG" = envOther "INFLUX_ORG" ∧
    envEmpty "INFLUX_BUCKET" = envOther "INFLUX_BUCKET" ∧
    mainRun envEmpty = mainRun envOther :=
  ⟨by decide, by decide, by decide,
    mainRun_depends_only_on_influx envEmpty envOther
      (by decide) (by decide) (by decide)⟩

/-- C6: with threshold 1/2 and baseline length 5, after five prior snapshots
of bid depth 100, a snapshot with bid depth 40 (a 60% drop) yields exactly
one `DepthAnomaly` event whose severity is the relative-change value 3/5; a
snapshot with bid depth 55 (a 45% drop) yields no event; and with only four
prior snapshots no detection occurs. -/
theorem depthAnomaly_scenario :
    depthAnomalyDetect c6cfg c6prior ⟨"BTC", 5, 40, 100, 6⟩ =
      some ⟨"BTC", 5, .DepthAnomaly, Q.frac 3 5, Q.frac 3 5⟩ ∧
    depthAnomalyDetect c6cfg c6prior ⟨"BTC", 5, 55, 100, 6⟩ = none ∧
    depthAnomalyDetect c6cfg ((List.range 4).map baseSnap)
      ⟨"BTC", 4, 40, 100, 5⟩ = none := by
  decide

set_option maxRecDepth 10000 in
/-- C7: over the 50-insert run — 20 snapshots declining linearly from 1000
to 200 with the slope threshold 1/1000 below the implied normalized slope,
followed by 30 further inserts inside the cooldown window with the downward
trend continuing — the pipeline emits exactly one detection event: the
`LiquidityShrinkage` event of the first crossing (timestamp 4, severity
4/87, fitted slope -800/19), and nothing afterwards. -/
theorem shrinkage_cooldown_scenario :
    (runPipeline c7cfg c7init c7inputs).2 =
      [⟨"BTC", 4, .LiquidityShrinkage, Q.frac 4 87, Q.frac (-800) 19⟩] := by
  decide

set_option maxRecDepth 10000 in
/-- C8: with batch size 50, emitting 150 events produces exactly 3 sink
writes of 50 events each and leaves the buffer empty; emitting 149 events
produces 2 full batches, and the drain-time flush writes the remaining
partial batch of 49. -/
theorem emitter_batching_scenario :
    ((Emitter.fresh DetectionEvent 50).emitAll (evs 150)).writes.map
      List.length = [50, 50, 50] ∧
    ((Emitter.fresh DetectionEvent 50).emitAll (evs 150)).buffer = [] ∧
    ((Emitter.fresh DetectionEvent 50).emitAll (evs 149)).writes.map
      List.length = [50, 50] ∧
    ((Emitter.fresh DetectionEvent 50).emitAll (evs 149)).flush.writes.map
      List.length = [50, 50, 49] := by
  decide

/-- C4 counterexample: with retention horizon 10, delivering two in-order
snapshots 100 time units apart stores only the newer one (the older is
evicted), so the stored contents are not the full filtered subsequence of
the input. -/
theorem window_eviction_counterexample :
    ((SymbolWindow.fresh "BTC" 10).insertAll
        [⟨"BTC", 0, 1, 1, 1⟩, ⟨"BTC", 100, 1, 1, 2⟩]).snapshots
      ≠ filteredSubseq none none
        [⟨"BTC", 0, 1, 1, 1⟩, ⟨"BTC", 100, 1, 1, 2⟩] := by
  decide

/-- C4 (amended): for every sequence of snapshots delivered to a single
fresh SymbolWindow, the stored contents equal the filtered subsequence of
the input (strictly increasing sequence, non-decreasing timestamp) with one
final retention eviction relative to the latest kept timestamp; and every
delivered snapshot is either kept by that filter or counted exactly once as
a duplicate or sequence gap — rejections never raise an error. -/
theorem window_stores_filtered_subsequence (sym : String) (h : Nat)
    (xs : List DepthSnapshot) :
    ((SymbolWindow.fresh sym h).insertAll xs).snapshots
      = evictFinal h (filteredSubseq none none xs) ∧
    ((SymbolWindow.fresh sym h).insertAll xs).dup_count
      + ((SymbolWindow.fresh sym h).insertAll xs).gap_count
      + (filteredSubseq none none xs).length = xs.length := by
  constructor
  · have hmain := insertAll_snapshots xs (SymbolWindow.fresh sym h) rfl
    simpa [SymbolWindow.fresh, SymbolWindow.newestTs] using hmain
  · have hmain := insertAll_counts xs (SymbolWindow.fresh sym h)
    simpa [SymbolWindow.fresh, SymbolWindow.newestTs] using hmain

/-- C5: retention is an invariant preserved by every insert: starting from
any window whose stored snapshots are within the horizon of its newest
entry (in particular a fresh window), after any sequence of inserts —
whatever event-time span they cover — no stored snapshot is older than the
horizon relative to the latest stored timestamp.  Eviction is keyed to the
latest inserted event time, not wall-clock. -/
theorem retention_invariant (w : SymbolWindow) (hw : w.retentionOk)
    (xs : List DepthSnapshot) : (w.insertAll xs).retentionOk :=
  insertAll_retentionOk xs w hw

/-- C5 witness: a fresh window with horizon 10 receiving two snapshots 100
time units apart (spanning far more than the horizon) still satisfies the
retention property afterwards. -/
theorem retention_invariant_witness :
    (SymbolWindow.fresh "BTC" 10).retentionOk ∧
    ((SymbolWindow.fresh "BTC" 10).insertAll
      [⟨"BTC", 0, 1, 1, 1⟩, ⟨"BTC", 100, 1, 1, 2⟩]).retentionOk :=
  ⟨fun s hs => absurd hs (List.not_mem_nil s),
   retention_invariant _ (fun s hs => absurd hs (List.not_mem_nil s)) _⟩

/-- C9: replaying an already-seen snapshot is idempotent for detection
output: from any initial pipeline state, after the pipeline has processed an
input stream containing snapshot `s`, processing `s` again produces no
detection event from either detector (the window rejects the duplicate and
no detector runs). -/
theorem replay_idempotent (cfg : PipelineConfig) (st0 : PipelineState)
    (xs : List DepthSnapshot) (s : DepthSnapshot) (hmem : s ∈ xs) :
    (pipelineStep cfg (runPipeline cfg st0 xs).1 s).2 = [] := by
  have hbar := run_establishes_barrier cfg s xs hmem st0
  have hrej := barrier_rejects _ s hbar
  simp [pipelineStep, hrej]

/-- C9 witness: replaying the first scenario snapshot right after a run that
already processed it produces no detection event. -/
theorem replay_idempotent_witness :
    baseSnap 0 ∈ [baseSnap 0] ∧
    (pipelineStep c7cfg (runPipeline c7cfg c7init [baseSnap 0]).1
      (baseSnap 0)).2 = [] :=
  ⟨List.mem_singleton.mpr rfl,
   replay_idempotent c7cfg c7init [baseSnap 0] (baseSnap 0)
     (List.mem_singleton.mpr rfl)⟩

end OkexBuddy
